import Mathlib

/-!
# Verification of the oasis-core CHURP / staking specification

A shallow embedding of the types in `keymanager/src/churp/types.rs` and
`runtime/src/consensus/staking.rs`, together with a CBOR value model for the
derived `cbor::Encode` / `cbor::Decode` instances, and spec-modelled versions
of the components (ShareFetcher, ShareQueryServer, HandoffCoordinator,
ChecksumVerifier) whose code is not part of the extracted sources.

Machine integers (`u8`, `u64`, `i64`, `u128`) are modelled as `Nat` / `Int`;
the fixed-width byte types (`Hash`, `Namespace`, `PublicKey`, `Signature`,
`Address`) as length-indexed subtypes of `List Nat`.
-/

/-! ## CBOR value model

Structured CBOR values, abstracting the byte-level wire format (out of scope
per the spec: only field-level contracts matter).  The oasis `cbor` derive
encodes a struct as a map keyed by field-name text strings; a field marked
`#[cbor(optional)]` is skipped on encode when its value equals its `Default`
value and, when the key is missing on decode, it decodes to the `Default`
value.  Unit enums with `#[repr(iN)]` encode as their integer discriminant.
Enums with struct variants encode as a single-entry map keyed by the variant
name.  Key order inside a map is irrelevant to the decoder (which looks keys
up), so the encoder below emits fields in declaration order. -/

inductive CborValue : Type where
  | int (n : Int)
  | bytes (b : List Nat)
  | text (s : String)
  | arr (xs : List CborValue)
  | map (kvs : List (CborValue × CborValue))
  | bool (b : Bool)

/-- Look up the value at a text key in a CBOR map's entry list (first match;
entries with non-text keys are skipped). -/
def lookupKey (k : String) : List (CborValue × CborValue) → Option CborValue
  | [] => none
  | (CborValue.text s, v) :: rest => if s = k then some v else lookupKey k rest
  | _ :: rest => lookupKey k rest

/-- The list of text keys of a CBOR map value. -/
def cborKeys : CborValue → List String
  | CborValue.map kvs =>
      kvs.filterMap fun p =>
        match p.1 with
        | CborValue.text s => some s
        | _ => none
  | _ => []

/-- Encode one required struct field. -/
def encReq (k : String) (enc : α → CborValue) (v : α) : List (CborValue × CborValue) :=
  [(CborValue.text k, enc v)]

/-- Encode one `#[cbor(optional)]` struct field: skipped when the value equals
its default. -/
def encOpt [DecidableEq α] (k : String) (enc : α → CborValue) (d : α) (v : α) :
    List (CborValue × CborValue) :=
  if v = d then [] else [(CborValue.text k, enc v)]

/-- Decode one required struct field: a missing key is an error. -/
def decReq (kvs : List (CborValue × CborValue)) (k : String)
    (dec : CborValue → Option α) : Option α :=
  (lookupKey k kvs).bind dec

/-- Decode one `#[cbor(optional)]` struct field: a missing key yields the
default. -/
def decOpt (kvs : List (CborValue × CborValue)) (k : String)
    (dec : CborValue → Option α) (d : α) : Option α :=
  match lookupKey k kvs with
  | none => some d
  | some v => dec v

theorem lookupKey_nil (k : String) : lookupKey k [] = none := rfl

theorem lookupKey_encReq_self (k : String) (enc : α → CborValue) (v : α)
    (rest : List (CborValue × CborValue)) :
    lookupKey k (encReq k enc v ++ rest) = some (enc v) := by
  simp [encReq, lookupKey]

theorem lookupKey_encReq_ne (k k' : String) (h : k' ≠ k) (enc : α → CborValue) (v : α)
    (rest : List (CborValue × CborValue)) :
    lookupKey k (encReq k' enc v ++ rest) = lookupKey k rest := by
  simp [encReq, lookupKey, h]

theorem lookupKey_encOpt_self [DecidableEq α] (k : String) (enc : α → CborValue) (d v : α)
    (rest : List (CborValue × CborValue)) :
    lookupKey k (encOpt k enc d v ++ rest) =
      if v = d then lookupKey k rest else some (enc v) := by
  unfold encOpt
  split <;> simp [lookupKey]

theorem lookupKey_encOpt_ne [DecidableEq α] (k k' : String) (h : k' ≠ k)
    (enc : α → CborValue) (d v : α) (rest : List (CborValue × CborValue)) :
    lookupKey k (encOpt k' enc d v ++ rest) = lookupKey k rest := by
  unfold encOpt
  split <;> simp [lookupKey, h]

/-- Decoding a required field that was encoded at the head of the field list
succeeds with the original value whenever the element decoder inverts the
element encoder. -/
theorem decReq_of_lookup (kvs : List (CborValue × CborValue)) (k : String)
    (dec : CborValue → Option α) (enc : α → CborValue) (v : α)
    (hl : lookupKey k kvs = some (enc v)) (hrt : dec (enc v) = some v) :
    decReq kvs k dec = some v := by
  simp [decReq, hl, hrt]

/-- Decoding an optional field whose lookup result is the `encOpt` conditional
recovers the original value. -/
theorem decOpt_of_lookup [DecidableEq α] (kvs : List (CborValue × CborValue)) (k : String)
    (dec : CborValue → Option α) (enc : α → CborValue) (d v : α)
    (hl : lookupKey k kvs = if v = d then none else some (enc v))
    (hrt : dec (enc v) = some v) :
    decOpt kvs k dec d = some v := by
  unfold decOpt
  rw [hl]
  by_cases hv : v = d
  · simp [hv]
  · simp [hv, hrt]

/-! ## Fixed-width byte types

`Hash` (32-byte digest), `Namespace` (32-byte runtime identifier),
`PublicKey` (32-byte Ed25519 key), `Signature` (64-byte Ed25519 signature)
and `Address` (21-byte staking address) are defined outside the extracted
sources (in `common::crypto` / `common::namespace` / `consensus::address`);
they are modelled as the byte strings of the documented width that they
serialize to. -/

def FixedBytes (n : Nat) := {l : List Nat // l.length = n}

instance (n : Nat) : DecidableEq (FixedBytes n) :=
  fun a b => decidable_of_iff (a.val = b.val) Subtype.ext_iff.symm

instance (n : Nat) : Inhabited (FixedBytes n) :=
  ⟨⟨List.replicate n 0, List.length_replicate n 0⟩⟩

def FixedBytes.enc (x : FixedBytes n) : CborValue := CborValue.bytes x.val

def FixedBytes.dec (n : Nat) : CborValue → Option (FixedBytes n)
  | CborValue.bytes l => if h : l.length = n then some ⟨l, h⟩ else none
  | _ => none

theorem FixedBytes_rt (x : FixedBytes n) : FixedBytes.dec n (FixedBytes.enc x) = some x := by
  simp [FixedBytes.enc, FixedBytes.dec, x.2]

/-- 32-byte cryptographic digest (`common::crypto::hash::Hash`). -/
abbrev Hash := FixedBytes 32

/-- Runtime identifier (`common::namespace::Namespace`, 32 bytes). -/
abbrev Namespace := FixedBytes 32

/-- Ed25519 public key (`common::crypto::signature::PublicKey`, 32 bytes). -/
abbrev PublicKey := FixedBytes 32

/-- Ed25519 signature (`common::crypto::signature::Signature`, 64 bytes). -/
abbrev Signature := FixedBytes 64

/-- Staking address (`consensus::address::Address`, 21 bytes). -/
abbrev Address := FixedBytes 21

/-- Epoch number (`consensus::beacon::EpochTime`, a `u64`), modelled as `Nat`. -/
abbrev EpochTime := Nat

/-- Arbitrary-precision token amount (`common::quantity::Quantity`); CBOR form
is the minimal big-endian byte string (empty for zero). -/
abbrev Quantity := Nat

def Quantity.enc (q : Quantity) : CborValue :=
  CborValue.bytes (Nat.digits 256 q).reverse

def Quantity.dec : CborValue → Option Quantity
  | CborValue.bytes l => some (Nat.ofDigits 256 l.reverse)
  | _ => none

theorem Quantity_rt (q : Quantity) : Quantity.dec (Quantity.enc q) = some q := by
  simp [Quantity.enc, Quantity.dec, Nat.ofDigits_digits]

/-- Unsigned integer field (`u8` / `u64`), modelled as `Nat`; CBOR integer. -/
def natEnc (v : Nat) : CborValue := CborValue.int v

def natDec : CborValue → Option Nat
  | CborValue.int n => if 0 ≤ n then some n.toNat else none
  | _ => none

theorem natDec_rt (v : Nat) : natDec (natEnc v) = some v := by
  simp [natEnc, natDec]

/-- Signed integer field (`i64`), modelled as `Int`; CBOR integer. -/
def intEnc (v : Int) : CborValue := CborValue.int v

def intDec : CborValue → Option Int
  | CborValue.int n => some n
  | _ => none

theorem intDec_rt (v : Int) : intDec (intEnc v) = some v := rfl

def boolEnc (b : Bool) : CborValue := CborValue.bool b

def boolDec : CborValue → Option Bool
  | CborValue.bool b => some b
  | _ => none

theorem boolDec_rt (b : Bool) : boolDec (boolEnc b) = some b := rfl

/-! ## CHURP worker-host protocol types (`keymanager/src/churp/types.rs`) -/

/-- Handoff request (`HandoffRequest`): the (id, runtime_id, epoch) triple that
uniquely identifies one handoff instance. `id` is a `u8` scheme identifier. -/
structure HandoffRequest where
  id : Nat
  runtime_id : Namespace
  epoch : EpochTime
deriving DecidableEq, Inhabited

/-- Handoff query (`QueryRequest`). `node_id` is `#[cbor(optional)]`. -/
structure QueryRequest where
  id : Nat
  runtime_id : Namespace
  epoch : EpochTime
  node_id : Option PublicKey
deriving DecidableEq, Inhabited

/-- Fetch handoff data request (`FetchRequest`). -/
structure FetchRequest where
  id : Nat
  runtime_id : Namespace
  epoch : EpochTime
  node_ids : List PublicKey
deriving DecidableEq, Inhabited

/-- Fetch handoff data response (`FetchResponse`). -/
structure FetchResponse where
  completed : Bool
  succeeded : List PublicKey
  failed : List PublicKey
deriving DecidableEq, Inhabited

/-- Node's application to form a new committee (`ApplicationRequest`);
`checksum` is the hash of the verification matrix. -/
structure ApplicationRequest where
  id : Nat
  runtime_id : Namespace
  epoch : EpochTime
  checksum : Hash
deriving DecidableEq, Inhabited

/-- An application request signed by the key manager enclave using its runtime
attestation key (RAK) (`SignedApplicationRequest`). -/
structure SignedApplicationRequest where
  application : ApplicationRequest
  signature : Signature
deriving DecidableEq, Inhabited

/-- Confirmation that the node successfully reconstructed the share
(`ConfirmationRequest`); `checksum` is the hash of the verification matrix. -/
structure ConfirmationRequest where
  id : Nat
  runtime_id : Namespace
  epoch : EpochTime
  checksum : Hash
deriving DecidableEq, Inhabited

/-- A confirmation request signed by the key manager enclave using its runtime
attestation key (RAK) (`SignedConfirmationRequest`). -/
structure SignedConfirmationRequest where
  confirmation : ConfirmationRequest
  signature : Signature
deriving DecidableEq, Inhabited

/-- Encoded secret share (`EncodedSecretShare`): encoded polynomial plus
encoded verification matrix, both byte blobs (`Vec<u8>`). -/
structure EncodedSecretShare where
  polynomial : List Nat
  verification_matrix : List Nat
deriving DecidableEq, Inhabited

def bytesEnc (b : List Nat) : CborValue := CborValue.bytes b

def HandoffRequest.enc (x : HandoffRequest) : CborValue :=
  CborValue.map
    (encReq "id" natEnc x.id ++ encReq "runtime_id" FixedBytes.enc x.runtime_id ++
      encReq "epoch" natEnc x.epoch ++ [])

def QueryRequest.enc (x : QueryRequest) : CborValue :=
  CborValue.map
    (encReq "id" natEnc x.id ++ encReq "runtime_id" FixedBytes.enc x.runtime_id ++
      encReq "epoch" natEnc x.epoch ++
      encOpt "node_id" (fun o => match o with | some pk => FixedBytes.enc pk | none => CborValue.map []) none x.node_id ++ [])

def FetchRequest.enc (x : FetchRequest) : CborValue :=
  CborValue.map
    (encReq "id" natEnc x.id ++ encReq "runtime_id" FixedBytes.enc x.runtime_id ++
      encReq "epoch" natEnc x.epoch ++
      encReq "node_ids" (fun l => CborValue.arr (l.map FixedBytes.enc)) x.node_ids ++ [])

def FetchResponse.enc (x : FetchResponse) : CborValue :=
  CborValue.map
    (encReq "completed" boolEnc x.completed ++
      encReq "succeeded" (fun l => CborValue.arr (l.map FixedBytes.enc)) x.succeeded ++
      encReq "failed" (fun l => CborValue.arr (l.map FixedBytes.enc)) x.failed ++ [])

def ApplicationRequest.enc (x : ApplicationRequest) : CborValue :=
  CborValue.map
    (encReq "id" natEnc x.id ++ encReq "runtime_id" FixedBytes.enc x.runtime_id ++
      encReq "epoch" natEnc x.epoch ++ encReq "checksum" FixedBytes.enc x.checksum ++ [])

def SignedApplicationRequest.enc (x : SignedApplicationRequest) : CborValue :=
  CborValue.map
    (encReq "application" ApplicationRequest.enc x.application ++
      encReq "signature" FixedBytes.enc x.signature ++ [])

def ConfirmationRequest.enc (x : ConfirmationRequest) : CborValue :=
  CborValue.map
    (encReq "id" natEnc x.id ++ encReq "runtime_id" FixedBytes.enc x.runtime_id ++
      encReq "epoch" natEnc x.epoch ++ encReq "checksum" FixedBytes.enc x.checksum ++ [])

def SignedConfirmationRequest.enc (x : SignedConfirmationRequest) : CborValue :=
  CborValue.map
    (encReq "confirmation" ConfirmationRequest.enc x.confirmation ++
      encReq "signature" FixedBytes.enc x.signature ++ [])

def EncodedSecretShare.enc (x : EncodedSecretShare) : CborValue :=
  CborValue.map
    (encReq "polynomial" bytesEnc x.polynomial ++
      encReq "verification_matrix" bytesEnc x.verification_matrix ++ [])

/-- Decoder for the optional `Option<PublicKey>` field: a present value must be
a 32-byte public key. -/
def optPkDec (v : CborValue) : Option (Option PublicKey) :=
  (FixedBytes.dec 32 v).map some

def QueryRequest.dec : CborValue → Option QueryRequest
  | CborValue.map kvs => do
      let i ← decReq kvs "id" natDec
      let r ← decReq kvs "runtime_id" (FixedBytes.dec 32)
      let e ← decReq kvs "epoch" natDec
      let n ← decOpt kvs "node_id" optPkDec none
      pure ⟨i, r, e, n⟩
  | _ => none

/-! ## List / map field helpers -/

def listEnc (enc : α → CborValue) (l : List α) : CborValue :=
  CborValue.arr (l.map enc)

/-- Decode a list of CBOR values elementwise, failing when any element
fails. -/
def decSeq (dec : CborValue → Option α) : List CborValue → Option (List α)
  | [] => some []
  | v :: rest => do
      let a ← dec v
      let t ← decSeq dec rest
      pure (a :: t)

def listDec (dec : CborValue → Option α) : CborValue → Option (List α)
  | CborValue.arr xs => decSeq dec xs
  | _ => none

theorem decSeq_rt (dec : CborValue → Option α) (enc : α → CborValue)
    (h : ∀ a, dec (enc a) = some a) (l : List α) :
    decSeq dec (l.map enc) = some l := by
  induction l with
  | nil => rfl
  | cons a t ih => simp [decSeq, h a, ih]

theorem listDec_rt (dec : CborValue → Option α) (enc : α → CborValue)
    (h : ∀ a, dec (enc a) = some a) (l : List α) :
    listDec dec (listEnc enc l) = some l := by
  simp [listDec, listEnc, decSeq_rt dec enc h]

/-- A `BTreeMap` field encodes as a CBOR map; modelled as its (sorted, unique)
entry list. -/
def mapEnc {κ β : Type} (encK : κ → CborValue) (encV : β → CborValue) (l : List (κ × β)) : CborValue :=
  CborValue.map (l.map fun p => (encK p.1, encV p.2))

/-- Decode the entries of a CBOR map as key/value pairs. -/
def decPairs {κ β : Type} (decK : CborValue → Option κ) (decV : CborValue → Option β) :
    List (CborValue × CborValue) → Option (List (κ × β))
  | [] => some []
  | p :: rest => do
      let k ← decK p.1
      let v ← decV p.2
      let t ← decPairs decK decV rest
      pure ((k, v) :: t)

def mapDec {κ β : Type} (decK : CborValue → Option κ) (decV : CborValue → Option β) :
    CborValue → Option (List (κ × β))
  | CborValue.map kvs => decPairs decK decV kvs
  | _ => none

theorem decPairs_rt {κ β : Type} (decK : CborValue → Option κ) (encK : κ → CborValue)
    (decV : CborValue → Option β) (encV : β → CborValue)
    (hk : ∀ a, decK (encK a) = some a) (hv : ∀ b, decV (encV b) = some b)
    (l : List (κ × β)) :
    decPairs decK decV (l.map fun p => (encK p.1, encV p.2)) = some l := by
  induction l with
  | nil => rfl
  | cons a t ih => simp [decPairs, hk, hv, ih]

theorem mapDec_rt {κ β : Type} (decK : CborValue → Option κ) (encK : κ → CborValue)
    (decV : CborValue → Option β) (encV : β → CborValue)
    (hk : ∀ a, decK (encK a) = some a) (hv : ∀ b, decV (encV b) = some b)
    (l : List (κ × β)) :
    mapDec decK decV (mapEnc encK encV l) = some l := by
  simp [mapDec, mapEnc, decPairs_rt decK encK decV encV hk hv]

def strEnc (s : String) : CborValue := CborValue.text s

def strDec : CborValue → Option String
  | CborValue.text s => some s
  | _ => none

theorem strDec_rt (s : String) : strDec (strEnc s) = some s := rfl

/-- Encoder for an `Option<T>` field value; under `encOpt` the `none` branch is
never reached (the default `None` is skipped), so it maps to a dummy value. -/
def optEnc (enc : α → CborValue) : Option α → CborValue
  | some x => enc x
  | none => CborValue.map []

def optDec (dec : CborValue → Option α) (v : CborValue) : Option (Option α) :=
  (dec v).map some

theorem optDec_rt_some (dec : CborValue → Option α) (enc : α → CborValue)
    (h : ∀ a, dec (enc a) = some a) (x : α) :
    optDec dec (optEnc enc (some x)) = some (some x) := by
  simp [optDec, optEnc, h]

/-! ## Consensus staking types (`runtime/src/consensus/staking.rs`) -/

/-- Kind of staking threshold (`ThresholdKind`, `#[repr(i32)]`); the
discriminant 3 is assigned to no kind. -/
inductive ThresholdKind : Type where
  | KindEntity
  | KindNodeValidator
  | KindNodeCompute
  | KindNodeKeyManager
  | KindRuntimeCompute
  | KindRuntimeKeyManager
deriving DecidableEq

/-- The `i32` discriminant of a `ThresholdKind`. -/
def ThresholdKind.disc : ThresholdKind → Int
  | .KindEntity => 0
  | .KindNodeValidator => 1
  | .KindNodeCompute => 2
  | .KindNodeKeyManager => 4
  | .KindRuntimeCompute => 5
  | .KindRuntimeKeyManager => 6

def ThresholdKind.enc (k : ThresholdKind) : CborValue := CborValue.int k.disc

def ThresholdKind.dec : CborValue → Option ThresholdKind
  | CborValue.int n =>
      if n = 0 then some .KindEntity
      else if n = 1 then some .KindNodeValidator
      else if n = 2 then some .KindNodeCompute
      else if n = 4 then some .KindNodeKeyManager
      else if n = 5 then some .KindRuntimeCompute
      else if n = 6 then some .KindRuntimeKeyManager
      else none
  | _ => none

theorem ThresholdKind_rt (k : ThresholdKind) : ThresholdKind.dec (ThresholdKind.enc k) = some k := by
  cases k <;> rfl

/-- General purpose account (`GeneralAccount`); every field is
`#[cbor(optional)]`. `allowances` is a `BTreeMap<Address, Quantity>`. -/
structure GeneralAccount where
  balance : Quantity
  nonce : Nat
  allowances : List (Address × Quantity)
deriving DecidableEq, Inhabited

/-- Combined balance of several entries (`SharePool`); every field optional. -/
structure SharePool where
  balance : Quantity
  total_shares : Quantity
deriving DecidableEq, Inhabited

/-- Commission rate and its starting time (`CommissionRateStep`). -/
structure CommissionRateStep where
  start : EpochTime
  rate : Quantity
deriving DecidableEq, Inhabited

/-- Commission rate bound and its starting time (`CommissionRateBoundStep`);
every field optional. -/
structure CommissionRateBoundStep where
  start : EpochTime
  rate_min : Quantity
  rate_max : Quantity
deriving DecidableEq, Inhabited

/-- List of commission rates and bounds (`CommissionSchedule`); every field
optional. -/
structure CommissionSchedule where
  rates : List CommissionRateStep
  bounds : List CommissionRateBoundStep
deriving DecidableEq, Inhabited

/-- Stake threshold used in the stake accumulator (`StakeThreshold`); both
fields optional, `constant` renamed to key "const". -/
structure StakeThreshold where
  global : Option ThresholdKind
  constant : Option Quantity
deriving DecidableEq, Inhabited

/-- Per escrow account stake accumulator (`StakeAccumulator`); `claims` is a
`BTreeMap<StakeClaim, Vec<StakeThreshold>>` with `StakeClaim = String`. -/
structure StakeAccumulator where
  claims : List (String × List StakeThreshold)
deriving DecidableEq, Inhabited

/-- Escrow account (`EscrowAccount`); every field is `#[cbor(optional)]`. -/
structure EscrowAccount where
  active : SharePool
  debonding : SharePool
  commission_schedule : CommissionSchedule
  stake_accumulator : StakeAccumulator
deriving DecidableEq, Inhabited

/-- Entry in the staking ledger (`Account`); both fields are
`#[cbor(optional)]`. -/
structure Account where
  general : GeneralAccount
  escrow : EscrowAccount
deriving DecidableEq, Inhabited

/-- Delegation descriptor (`Delegation`). -/
structure Delegation where
  shares : Quantity
deriving DecidableEq, Inhabited

/-- Debonding delegation descriptor (`DebondingDelegation`); the second field
is renamed to key "debond_end". -/
structure DebondingDelegation where
  shares : Quantity
  debond_end_time : EpochTime
deriving DecidableEq, Inhabited

/-- Event emitted when stake is transferred (`TransferEvent`).  The source
and destination fields are named `from` and `to` in Rust, which are reserved
words in Lean; they are named `from_addr` / `to_addr` here but keep the CBOR
keys "from" and "to". -/
structure TransferEvent where
  from_addr : Address
  to_addr : Address
  amount : Quantity
deriving DecidableEq, Inhabited

/-- Event emitted when stake is destroyed via a call to Burn (`BurnEvent`). -/
structure BurnEvent where
  owner : Address
  amount : Quantity
deriving DecidableEq, Inhabited

/-- Escrow-related events (`EscrowEvent`); each variant is renamed to its CBOR
key. -/
inductive EscrowEvent : Type where
  | Add (owner : Address) (escrow : Address) (amount : Quantity) (new_shares : Quantity)
  | Take (owner : Address) (amount : Quantity) (debonding_amount : Quantity)
  | DebondingStart (owner : Address) (escrow : Address) (amount : Quantity)
      (active_shares : Quantity) (debonding_shares : Quantity) (debond_end_time : EpochTime)
  | Reclaim (owner : Address) (escrow : Address) (amount : Quantity) (shares : Quantity)
deriving DecidableEq

/-- Event emitted when allowance is changed (`AllowanceChangeEvent`); only
`negative` is optional. -/
structure AllowanceChangeEvent where
  owner : Address
  beneficiary : Address
  allowance : Quantity
  negative : Bool
  amount_change : Quantity
deriving DecidableEq, Inhabited

/-- A staking-related event (`Event`); every field is `#[cbor(optional)]`. -/
structure Event where
  height : Int
  tx_hash : Hash
  transfer : Option TransferEvent
  burn : Option BurnEvent
  escrow : Option EscrowEvent
  allowance_change : Option AllowanceChangeEvent
deriving DecidableEq, Inhabited

/-! ## Staking CBOR encoders / decoders -/

def addrDec : CborValue → Option Address := FixedBytes.dec 21

theorem addrDec_rt (a : Address) : addrDec (FixedBytes.enc a) = some a := FixedBytes_rt a

def allowancesEnc : List (Address × Quantity) → CborValue :=
  mapEnc FixedBytes.enc Quantity.enc

def allowancesDec : CborValue → Option (List (Address × Quantity)) :=
  mapDec addrDec Quantity.dec

theorem allowancesDec_rt (l : List (Address × Quantity)) :
    allowancesDec (allowancesEnc l) = some l :=
  mapDec_rt addrDec FixedBytes.enc Quantity.dec Quantity.enc addrDec_rt Quantity_rt l

def GeneralAccount.enc (x : GeneralAccount) : CborValue :=
  CborValue.map
    (encOpt "balance" Quantity.enc (0 : Quantity) x.balance ++
      encOpt "nonce" natEnc (0 : Nat) x.nonce ++
      encOpt "allowances" allowancesEnc ([] : List (Address × Quantity)) x.allowances ++ [])

def GeneralAccount.dec : CborValue → Option GeneralAccount
  | CborValue.map kvs => do
      let b ← decOpt kvs "balance" Quantity.dec (0 : Quantity)
      let n ← decOpt kvs "nonce" natDec (0 : Nat)
      let al ← decOpt kvs "allowances" allowancesDec ([] : List (Address × Quantity))
      pure ⟨b, n, al⟩
  | _ => none

theorem GeneralAccount_rt (x : GeneralAccount) :
    GeneralAccount.dec (GeneralAccount.enc x) = some x := by
  obtain ⟨b, n, al⟩ := x
  by_cases hb : b = (0 : Quantity) <;>
    by_cases hn : n = (0 : Nat) <;>
      by_cases ha : al = ([] : List (Address × Quantity)) <;>
        simp [GeneralAccount.enc, GeneralAccount.dec, encOpt, decOpt, lookupKey,
          hb, hn, ha, Quantity_rt, natDec_rt, allowancesDec_rt]

def SharePool.enc (x : SharePool) : CborValue :=
  CborValue.map
    (encOpt "balance" Quantity.enc (0 : Quantity) x.balance ++
      encOpt "total_shares" Quantity.enc (0 : Quantity) x.total_shares ++ [])

def SharePool.dec : CborValue → Option SharePool
  | CborValue.map kvs => do
      let b ← decOpt kvs "balance" Quantity.dec (0 : Quantity)
      let t ← decOpt kvs "total_shares" Quantity.dec (0 : Quantity)
      pure ⟨b, t⟩
  | _ => none

theorem SharePool_rt (x : SharePool) : SharePool.dec (SharePool.enc x) = some x := by
  obtain ⟨b, t⟩ := x
  by_cases hb : b = (0 : Quantity) <;> by_cases ht : t = (0 : Quantity) <;>
    simp [SharePool.enc, SharePool.dec, encOpt, decOpt, lookupKey, hb, ht, Quantity_rt]

def CommissionRateStep.enc (x : CommissionRateStep) : CborValue :=
  CborValue.map
    (encReq "start" natEnc x.start ++ encReq "rate" Quantity.enc x.rate ++ [])

def CommissionRateStep.dec : CborValue → Option CommissionRateStep
  | CborValue.map kvs => do
      let s ← decReq kvs "start" natDec
      let r ← decReq kvs "rate" Quantity.dec
      pure ⟨s, r⟩
  | _ => none

theorem CommissionRateStep_rt (x : CommissionRateStep) :
    CommissionRateStep.dec (CommissionRateStep.enc x) = some x := by
  obtain ⟨s, r⟩ := x
  simp [CommissionRateStep.enc, CommissionRateStep.dec, encReq, decReq, lookupKey,
    natDec_rt, Quantity_rt]

def CommissionRateBoundStep.enc (x : CommissionRateBoundStep) : CborValue :=
  CborValue.map
    (encOpt "start" natEnc (0 : Nat) x.start ++
      encOpt "rate_min" Quantity.enc (0 : Quantity) x.rate_min ++
      encOpt "rate_max" Quantity.enc (0 : Quantity) x.rate_max ++ [])

def CommissionRateBoundStep.dec : CborValue → Option CommissionRateBoundStep
  | CborValue.map kvs => do
      let s ← decOpt kvs "start" natDec (0 : Nat)
      let mn ← decOpt kvs "rate_min" Quantity.dec (0 : Quantity)
      let mx ← decOpt kvs "rate_max" Quantity.dec (0 : Quantity)
      pure ⟨s, mn, mx⟩
  | _ => none

theorem CommissionRateBoundStep_rt (x : CommissionRateBoundStep) :
    CommissionRateBoundStep.dec (CommissionRateBoundStep.enc x) = some x := by
  obtain ⟨s, mn, mx⟩ := x
  by_cases hs : s = (0 : Nat) <;> by_cases hn : mn = (0 : Quantity) <;>
    by_cases hx : mx = (0 : Quantity) <;>
      simp [CommissionRateBoundStep.enc, CommissionRateBoundStep.dec, encOpt, decOpt,
        lookupKey, hs, hn, hx, natDec_rt, Quantity_rt]

def ratesEnc : List CommissionRateStep → CborValue := listEnc CommissionRateStep.enc

def ratesDec : CborValue → Option (List CommissionRateStep) := listDec CommissionRateStep.dec

theorem ratesDec_rt (l : List CommissionRateStep) : ratesDec (ratesEnc l) = some l :=
  listDec_rt CommissionRateStep.dec CommissionRateStep.enc CommissionRateStep_rt l

def boundsEnc : List CommissionRateBoundStep → CborValue := listEnc CommissionRateBoundStep.enc

def boundsDec : CborValue → Option (List CommissionRateBoundStep) :=
  listDec CommissionRateBoundStep.dec

theorem boundsDec_rt (l : List CommissionRateBoundStep) : boundsDec (boundsEnc l) = some l :=
  listDec_rt CommissionRateBoundStep.dec CommissionRateBoundStep.enc CommissionRateBoundStep_rt l

def CommissionSchedule.enc (x : CommissionSchedule) : CborValue :=
  CborValue.map
    (encOpt "rates" ratesEnc ([] : List CommissionRateStep) x.rates ++
      encOpt "bounds" boundsEnc ([] : List CommissionRateBoundStep) x.bounds ++ [])

def CommissionSchedule.dec : CborValue → Option CommissionSchedule
  | CborValue.map kvs => do
      let r ← decOpt kvs "rates" ratesDec ([] : List CommissionRateStep)
      let b ← decOpt kvs "bounds" boundsDec ([] : List CommissionRateBoundStep)
      pure ⟨r, b⟩
  | _ => none

theorem CommissionSchedule_rt (x : CommissionSchedule) :
    CommissionSchedule.dec (CommissionSchedule.enc x) = some x := by
  obtain ⟨r, b⟩ := x
  by_cases hr : r = ([] : List CommissionRateStep) <;>
    by_cases hb : b = ([] : List CommissionRateBoundStep) <;>
      simp [CommissionSchedule.enc, CommissionSchedule.dec, encOpt, decOpt, lookupKey,
        hr, hb, ratesDec_rt, boundsDec_rt]

def StakeThreshold.enc (x : StakeThreshold) : CborValue :=
  CborValue.map
    (encOpt "global" (optEnc ThresholdKind.enc) (none : Option ThresholdKind) x.global ++
      encOpt "const" (optEnc Quantity.enc) (none : Option Quantity) x.constant ++ [])

def StakeThreshold.dec : CborValue → Option StakeThreshold
  | CborValue.map kvs => do
      let g ← decOpt kvs "global" (optDec ThresholdKind.dec) (none : Option ThresholdKind)
      let c ← decOpt kvs "const" (optDec Quantity.dec) (none : Option Quantity)
      pure ⟨g, c⟩
  | _ => none

theorem StakeThreshold_rt (x : StakeThreshold) :
    StakeThreshold.dec (StakeThreshold.enc x) = some x := by
  obtain ⟨g, c⟩ := x
  cases g <;> cases c <;>
    simp [StakeThreshold.enc, StakeThreshold.dec, encOpt, decOpt, lookupKey,
      optEnc, optDec, ThresholdKind_rt, Quantity_rt]

def thresholdsEnc : List StakeThreshold → CborValue := listEnc StakeThreshold.enc

def thresholdsDec : CborValue → Option (List StakeThreshold) := listDec StakeThreshold.dec

theorem thresholdsDec_rt (l : List StakeThreshold) : thresholdsDec (thresholdsEnc l) = some l :=
  listDec_rt StakeThreshold.dec StakeThreshold.enc StakeThreshold_rt l

def claimsEnc : List (String × List StakeThreshold) → CborValue := mapEnc strEnc thresholdsEnc

def claimsDec : CborValue → Option (List (String × List StakeThreshold)) :=
  mapDec strDec thresholdsDec

theorem claimsDec_rt (l : List (String × List StakeThreshold)) : claimsDec (claimsEnc l) = some l :=
  mapDec_rt strDec strEnc thresholdsDec thresholdsEnc strDec_rt thresholdsDec_rt l

def StakeAccumulator.enc (x : StakeAccumulator) : CborValue :=
  CborValue.map
    (encOpt "claims" claimsEnc ([] : List (String × List StakeThreshold)) x.claims ++ [])

def StakeAccumulator.dec : CborValue → Option StakeAccumulator
  | CborValue.map kvs => do
      let c ← decOpt kvs "claims" claimsDec ([] : List (String × List StakeThreshold))
      pure ⟨c⟩
  | _ => none

theorem StakeAccumulator_rt (x : StakeAccumulator) :
    StakeAccumulator.dec (StakeAccumulator.enc x) = some x := by
  obtain ⟨c⟩ := x
  by_cases hc : c = ([] : List (String × List StakeThreshold)) <;>
    simp [StakeAccumulator.enc, StakeAccumulator.dec, encOpt, decOpt, lookupKey, hc, claimsDec_rt]

/-- Componentwise `Default::default()` of `SharePool`. -/
def SharePool.dflt : SharePool := ⟨0, 0⟩

/-- Componentwise `Default::default()` of `CommissionSchedule`. -/
def CommissionSchedule.dflt : CommissionSchedule := ⟨[], []⟩

/-- Componentwise `Default::default()` of `StakeAccumulator`. -/
def StakeAccumulator.dflt : StakeAccumulator := ⟨[]⟩

/-- Componentwise `Default::default()` of `EscrowAccount`. -/
def EscrowAccount.dflt : EscrowAccount :=
  ⟨SharePool.dflt, SharePool.dflt, CommissionSchedule.dflt, StakeAccumulator.dflt⟩

/-- Componentwise `Default::default()` of `GeneralAccount`. -/
def GeneralAccount.dflt : GeneralAccount := ⟨0, 0, []⟩

/-- Componentwise `Default::default()` of `Account`. -/
def Account.dflt : Account := ⟨GeneralAccount.dflt, EscrowAccount.dflt⟩

def EscrowAccount.enc (x : EscrowAccount) : CborValue :=
  CborValue.map
    (encOpt "active" SharePool.enc SharePool.dflt x.active ++
      encOpt "debonding" SharePool.enc SharePool.dflt x.debonding ++
      encOpt "commission_schedule" CommissionSchedule.enc CommissionSchedule.dflt
        x.commission_schedule ++
      encOpt "stake_accumulator" StakeAccumulator.enc StakeAccumulator.dflt
        x.stake_accumulator ++ [])

def EscrowAccount.dec : CborValue → Option EscrowAccount
  | CborValue.map kvs => do
      let a ← decOpt kvs "active" SharePool.dec SharePool.dflt
      let d ← decOpt kvs "debonding" SharePool.dec SharePool.dflt
      let c ← decOpt kvs "commission_schedule" CommissionSchedule.dec CommissionSchedule.dflt
      let s ← decOpt kvs "stake_accumulator" StakeAccumulator.dec StakeAccumulator.dflt
      pure ⟨a, d, c, s⟩
  | _ => none

theorem EscrowAccount_rt (x : EscrowAccount) : EscrowAccount.dec (EscrowAccount.enc x) = some x := by
  obtain ⟨a, d, c, s⟩ := x
  by_cases ha : a = SharePool.dflt <;> by_cases hd : d = SharePool.dflt <;>
    by_cases hc : c = CommissionSchedule.dflt <;> by_cases hs : s = StakeAccumulator.dflt <;>
      simp [EscrowAccount.enc, EscrowAccount.dec, encOpt, decOpt, lookupKey,
        ha, hd, hc, hs, SharePool_rt, CommissionSchedule_rt, StakeAccumulator_rt]

def Account.enc (x : Account) : CborValue :=
  CborValue.map
    (encOpt "general" GeneralAccount.enc GeneralAccount.dflt x.general ++
      encOpt "escrow" EscrowAccount.enc EscrowAccount.dflt x.escrow ++ [])

def Account.dec : CborValue → Option Account
  | CborValue.map kvs => do
      let g ← decOpt kvs "general" GeneralAccount.dec GeneralAccount.dflt
      let e ← decOpt kvs "escrow" EscrowAccount.dec EscrowAccount.dflt
      pure ⟨g, e⟩
  | _ => none

theorem Account_rt (x : Account) : Account.dec (Account.enc x) = some x := by
  obtain ⟨g, e⟩ := x
  by_cases hg : g = GeneralAccount.dflt <;> by_cases he : e = EscrowAccount.dflt <;>
    simp [Account.enc, Account.dec, encOpt, decOpt, lookupKey, hg, he,
      GeneralAccount_rt, EscrowAccount_rt]

def Delegation.enc (x : Delegation) : CborValue :=
  CborValue.map (encReq "shares" Quantity.enc x.shares ++ [])

def Delegation.dec : CborValue → Option Delegation
  | CborValue.map kvs => do
      let s ← decReq kvs "shares" Quantity.dec
      pure ⟨s⟩
  | _ => none

theorem Delegation_rt (x : Delegation) : Delegation.dec (Delegation.enc x) = some x := by
  obtain ⟨s⟩ := x
  simp [Delegation.enc, Delegation.dec, encReq, decReq, lookupKey, Quantity_rt]

def DebondingDelegation.enc (x : DebondingDelegation) : CborValue :=
  CborValue.map
    (encReq "shares" Quantity.enc x.shares ++
      encReq "debond_end" natEnc x.debond_end_time ++ [])

def DebondingDelegation.dec : CborValue → Option DebondingDelegation
  | CborValue.map kvs => do
      let s ← decReq kvs "shares" Quantity.dec
      let e ← decReq kvs "debond_end" natDec
      pure ⟨s, e⟩
  | _ => none

theorem DebondingDelegation_rt (x : DebondingDelegation) :
    DebondingDelegation.dec (DebondingDelegation.enc x) = some x := by
  obtain ⟨s, e⟩ := x
  simp [DebondingDelegation.enc, DebondingDelegation.dec, encReq, decReq, lookupKey,
    Quantity_rt, natDec_rt]

def TransferEvent.enc (x : TransferEvent) : CborValue :=
  CborValue.map
    (encReq "from" FixedBytes.enc x.from_addr ++ encReq "to" FixedBytes.enc x.to_addr ++
      encReq "amount" Quantity.enc x.amount ++ [])

def TransferEvent.dec : CborValue → Option TransferEvent
  | CborValue.map kvs => do
      let f ← decReq kvs "from" addrDec
      let t ← decReq kvs "to" addrDec
      let a ← decReq kvs "amount" Quantity.dec
      pure ⟨f, t, a⟩
  | _ => none

theorem TransferEvent_rt (x : TransferEvent) : TransferEvent.dec (TransferEvent.enc x) = some x := by
  obtain ⟨f, t, a⟩ := x
  simp [TransferEvent.enc, TransferEvent.dec, encReq, decReq, lookupKey, addrDec_rt, Quantity_rt]

def BurnEvent.enc (x : BurnEvent) : CborValue :=
  CborValue.map
    (encReq "owner" FixedBytes.enc x.owner ++ encReq "amount" Quantity.enc x.amount ++ [])

def BurnEvent.dec : CborValue → Option BurnEvent
  | CborValue.map kvs => do
      let o ← decReq kvs "owner" addrDec
      let a ← decReq kvs "amount" Quantity.dec
      pure ⟨o, a⟩
  | _ => none

theorem BurnEvent_rt (x : BurnEvent) : BurnEvent.dec (BurnEvent.enc x) = some x := by
  obtain ⟨o, a⟩ := x
  simp [BurnEvent.enc, BurnEvent.dec, encReq, decReq, lookupKey, addrDec_rt, Quantity_rt]

/-- `EscrowEvent` encodes as a single-entry map keyed by the renamed variant
name ("add" / "take" / "debonding_start" / "reclaim"). -/
def EscrowEvent.enc : EscrowEvent → CborValue
  | .Add o e a ns =>
      CborValue.map
        [(CborValue.text "add",
          CborValue.map
            (encReq "owner" FixedBytes.enc o ++ encReq "escrow" FixedBytes.enc e ++
              encReq "amount" Quantity.enc a ++ encReq "new_shares" Quantity.enc ns ++ []))]
  | .Take o a da =>
      CborValue.map
        [(CborValue.text "take",
          CborValue.map
            (encReq "owner" FixedBytes.enc o ++ encReq "amount" Quantity.enc a ++
              encReq "debonding_amount" Quantity.enc da ++ []))]
  | .DebondingStart o e a as ds det =>
      CborValue.map
        [(CborValue.text "debonding_start",
          CborValue.map
            (encReq "owner" FixedBytes.enc o ++ encReq "escrow" FixedBytes.enc e ++
              encReq "amount" Quantity.enc a ++ encReq "active_shares" Quantity.enc as ++
              encReq "debonding_shares" Quantity.enc ds ++
              encReq "debond_end_time" natEnc det ++ []))]
  | .Reclaim o e a sh =>
      CborValue.map
        [(CborValue.text "reclaim",
          CborValue.map
            (encReq "owner" FixedBytes.enc o ++ encReq "escrow" FixedBytes.enc e ++
              encReq "amount" Quantity.enc a ++ encReq "shares" Quantity.enc sh ++ []))]

def EscrowEvent.dec : CborValue → Option EscrowEvent
  | CborValue.map [(CborValue.text k, CborValue.map kvs)] =>
      if k = "add" then do
        let o ← decReq kvs "owner" addrDec
        let e ← decReq kvs "escrow" addrDec
        let a ← decReq kvs "amount" Quantity.dec
        let ns ← decReq kvs "new_shares" Quantity.dec
        pure (.Add o e a ns)
      else if k = "take" then do
        let o ← decReq kvs "owner" addrDec
        let a ← decReq kvs "amount" Quantity.dec
        let da ← decReq kvs "debonding_amount" Quantity.dec
        pure (.Take o a da)
      else if k = "debonding_start" then do
        let o ← decReq kvs "owner" addrDec
        let e ← decReq kvs "escrow" addrDec
        let a ← decReq kvs "amount" Quantity.dec
        let as ← decReq kvs "active_shares" Quantity.dec
        let ds ← decReq kvs "debonding_shares" Quantity.dec
        let det ← decReq kvs "debond_end_time" natDec
        pure (.DebondingStart o e a as ds det)
      else if k = "reclaim" then do
        let o ← decReq kvs "owner" addrDec
        let e ← decReq kvs "escrow" addrDec
        let a ← decReq kvs "amount" Quantity.dec
        let sh ← decReq kvs "shares" Quantity.dec
        pure (.Reclaim o e a sh)
      else none
  | _ => none

theorem EscrowEvent_rt (x : EscrowEvent) : EscrowEvent.dec (EscrowEvent.enc x) = some x := by
  cases x <;>
    simp [EscrowEvent.enc, EscrowEvent.dec, encReq, decReq, lookupKey, addrDec_rt,
      Quantity_rt, natDec_rt]

def AllowanceChangeEvent.enc (x : AllowanceChangeEvent) : CborValue :=
  CborValue.map
    (encReq "owner" FixedBytes.enc x.owner ++
      encReq "beneficiary" FixedBytes.enc x.beneficiary ++
      encReq "allowance" Quantity.enc x.allowance ++
      encOpt "negative" boolEnc false x.negative ++
      encReq "amount_change" Quantity.enc x.amount_change ++ [])

def AllowanceChangeEvent.dec : CborValue → Option AllowanceChangeEvent
  | CborValue.map kvs => do
      let o ← decReq kvs "owner" addrDec
      let b ← decReq kvs "beneficiary" addrDec
      let al ← decReq kvs "allowance" Quantity.dec
      let n ← decOpt kvs "negative" boolDec false
      let ac ← decReq kvs "amount_change" Quantity.dec
      pure ⟨o, b, al, n, ac⟩
  | _ => none

theorem AllowanceChangeEvent_rt (x : AllowanceChangeEvent) :
    AllowanceChangeEvent.dec (AllowanceChangeEvent.enc x) = some x := by
  obtain ⟨o, b, al, n, ac⟩ := x
  cases n <;>
    simp [AllowanceChangeEvent.enc, AllowanceChangeEvent.dec, encReq, decReq, encOpt,
      decOpt, lookupKey, addrDec_rt, Quantity_rt, boolDec_rt, boolDec, boolEnc]

/-- The all-zero 32-byte hash (`Hash::default()`). -/
def Hash.zero : Hash := ⟨List.replicate 32 0, List.length_replicate 32 0⟩

def Event.enc (x : Event) : CborValue :=
  CborValue.map
    (encOpt "height" intEnc (0 : Int) x.height ++
      encOpt "tx_hash" FixedBytes.enc Hash.zero x.tx_hash ++
      encOpt "transfer" (optEnc TransferEvent.enc) (none : Option TransferEvent) x.transfer ++
      encOpt "burn" (optEnc BurnEvent.enc) (none : Option BurnEvent) x.burn ++
      encOpt "escrow" (optEnc EscrowEvent.enc) (none : Option EscrowEvent) x.escrow ++
      encOpt "allowance_change" (optEnc AllowanceChangeEvent.enc)
        (none : Option AllowanceChangeEvent) x.allowance_change ++ [])

def Event.dec : CborValue → Option Event
  | CborValue.map kvs => do
      let h ← decOpt kvs "height" intDec (0 : Int)
      let th ← decOpt kvs "tx_hash" (FixedBytes.dec 32) Hash.zero
      let t ← decOpt kvs "transfer" (optDec TransferEvent.dec) (none : Option TransferEvent)
      let b ← decOpt kvs "burn" (optDec BurnEvent.dec) (none : Option BurnEvent)
      let e ← decOpt kvs "escrow" (optDec EscrowEvent.dec) (none : Option EscrowEvent)
      let ac ← decOpt kvs "allowance_change" (optDec AllowanceChangeEvent.dec)
        (none : Option AllowanceChangeEvent)
      pure ⟨h, th, t, b, e, ac⟩
  | _ => none

theorem Event_rt (x : Event) : Event.dec (Event.enc x) = some x := by
  obtain ⟨h, th, t, b, e, ac⟩ := x
  by_cases hh : h = (0 : Int) <;> by_cases hth : th = Hash.zero <;>
    cases t <;> cases b <;> cases e <;> cases ac <;>
      simp [Event.enc, Event.dec, encOpt, decOpt, lookupKey, hh, hth, intDec_rt, intDec,
        intEnc, optEnc, optDec, FixedBytes_rt, TransferEvent_rt, BurnEvent_rt, EscrowEvent_rt,
        AllowanceChangeEvent_rt]

/-! ## Spec-modelled components

The CHURP component code (ChecksumVerifier, ShareFetcher, ShareQueryServer,
HandoffCoordinator) is not among the extracted sources; only its protocol
message types are.  The definitions below are modelled from the spec
(sections 4.2-4.5) and are marked as such. -/

/-- Modelled from the spec: `ChecksumVerifier.compute(matrix) -> Checksum`,
a pure, deterministic fixed-size digest of a verification matrix.  The digest
algorithm itself is opaque to the core; it is modelled as an explicit
deterministic 32-byte function of the matrix bytes. -/
def ChecksumVerifier.compute (m : List Nat) : Hash :=
  ⟨(List.range 32).map fun i => (m.foldl (fun a b => a * 131 + b + 1) (i + 7)) % 256,
    by simp⟩

/-- Modelled from the spec: `ChecksumVerifier.matches(matrix, expected)`
recomputes and compares. -/
def ChecksumVerifier.matches (m : List Nat) (expected : Hash) : Bool :=
  ChecksumVerifier.compute m = expected

/-- Modelled from the spec: the per-node fetch status of `FetchState`. -/
inductive FetchStatus : Type where
  | pending
  | succeededS
  | failedS
deriving DecidableEq

/-- Modelled from the spec: one sequentialized run of `ShareFetcher.fetch`.
`ok` abstracts the outcome of one retrieval attempt against a target node
(fragment fetched and verified against the agreed checksum, or failed).
Processes pending targets in order, accumulating succeeded and failed target
identities; as soon as the number of succeeded fragments reaches `threshold`,
`completed` is set and the outstanding pending targets are cancelled (returned
as the second component). -/
def fetchGo (ok : PublicKey → Bool) (threshold : Nat) :
    List PublicKey → List PublicKey → List PublicKey → FetchResponse × List PublicKey
  | pending, succ, failed =>
      if threshold ≤ succ.length then
        ({ completed := true, succeeded := succ.reverse, failed := failed.reverse }, pending)
      else
        match pending with
        | [] => ({ completed := false, succeeded := succ.reverse, failed := failed.reverse }, [])
        | n :: rest =>
            if ok n then fetchGo ok threshold rest (n :: succ) failed
            else fetchGo ok threshold rest succ (n :: failed)

/-- Modelled from the spec:
`ShareFetcher.fetch(HandoffId, target_nodes, threshold) -> FetchResult`. -/
def ShareFetcher.fetch (ok : PublicKey → Bool) (targets : List PublicKey) (threshold : Nat) :
    FetchResponse × List PublicKey :=
  fetchGo ok threshold targets [] []

/-- Correctness of one sequentialized `ShareFetcher` run, generalized over the
accumulators: every reported success passed verification, every reported
failure did not, the succeeded/failed/cancelled identities partition the
pending targets together with the accumulators, and if enough successes are
available then the run completes. -/
theorem fetchGo_spec (ok : PublicKey → Bool) (t : Nat) :
    ∀ (pending succ failed : List PublicKey),
      (∀ x ∈ succ, ok x = true) → (∀ x ∈ failed, ok x = false) →
      (∀ x ∈ (fetchGo ok t pending succ failed).1.succeeded, ok x = true) ∧
        (∀ x ∈ (fetchGo ok t pending succ failed).1.failed, ok x = false) ∧
        ((fetchGo ok t pending succ failed).1.succeeded +
            ((fetchGo ok t pending succ failed).1.failed +
              ((fetchGo ok t pending succ failed).2 : Multiset PublicKey)) =
          ↑succ + (↑failed + (pending : Multiset PublicKey))) ∧
        (t ≤ succ.length + pending.countP ok →
          (fetchGo ok t pending succ failed).1.completed = true) := by
  intro pending
  induction pending with
  | nil =>
      intro succ failed hs hf
      unfold fetchGo
      by_cases ht : t ≤ succ.length
      · rw [if_pos ht]
        refine ⟨?_, ?_, ?_, fun _ => rfl⟩
        · intro x hx; exact hs x (List.mem_reverse.mp hx)
        · intro x hx; exact hf x (List.mem_reverse.mp hx)
        · simp
      · rw [if_neg ht]
        refine ⟨?_, ?_, ?_, ?_⟩
        · intro x hx; exact hs x (List.mem_reverse.mp hx)
        · intro x hx; exact hf x (List.mem_reverse.mp hx)
        · simp
        · intro hc
          exact absurd (by simpa using hc) ht
  | cons n rest ih =>
      intro succ failed hs hf
      unfold fetchGo
      by_cases ht : t ≤ succ.length
      · rw [if_pos ht]
        refine ⟨?_, ?_, ?_, fun _ => rfl⟩
        · intro x hx; exact hs x (List.mem_reverse.mp hx)
        · intro x hx; exact hf x (List.mem_reverse.mp hx)
        · simp
      · rw [if_neg ht]
        dsimp only
        by_cases hok : ok n = true
        · rw [if_pos hok]
          have hs' : ∀ x ∈ n :: succ, ok x = true := by
            intro x hx
            rcases List.mem_cons.mp hx with h | h
            · simpa [h] using hok
            · exact hs x h
          obtain ⟨h1, h2, h3, h4⟩ := ih (n :: succ) failed hs' hf
          refine ⟨h1, h2, ?_, ?_⟩
          · rw [h3]
            simp only [Multiset.coe_add, Multiset.coe_eq_coe]
            have hp := @List.perm_middle _ n (succ ++ failed) rest
            simpa [List.append_assoc] using hp.symm
          · intro hc
            apply h4
            have hcnt : (n :: rest).countP ok = rest.countP ok + 1 := by
              simp [List.countP_cons, hok]
            simp only [List.length_cons]
            rw [hcnt] at hc
            omega
        · rw [if_neg hok]
          have hf' : ∀ x ∈ n :: failed, ok x = false := by
            intro x hx
            rcases List.mem_cons.mp hx with h | h
            · subst h
              exact Bool.not_eq_true _ |>.mp hok
            · exact hf x h
          obtain ⟨h1, h2, h3, h4⟩ := ih succ (n :: failed) hs hf'
          refine ⟨h1, h2, ?_, ?_⟩
          · rw [h3]
            simp only [Multiset.coe_add, Multiset.coe_eq_coe]
            have hp := @List.perm_middle _ n failed rest
            simpa using List.Perm.append_left succ hp.symm
          · intro hc
            apply h4
            have hcnt : (n :: rest).countP ok = rest.countP ok := by
              simp [List.countP_cons, hok]
            rw [hcnt] at hc
            exact hc

/-- The handoff identifier triple (spec section 3: runtime identifier, small
integer scheme id, epoch number); it is exactly the content of
`HandoffRequest`. -/
structure HandoffId where
  id : Nat
  runtime_id : Namespace
  epoch : EpochTime
deriving DecidableEq, Inhabited

/-- Modelled from the spec: the ShareQueryServer answering a `QueryRequest`
from local store metadata.  `none` is the explicit "not ready" result.  If
`node_id` is present, the responder verifies the caller's identity against it
before disclosing anything beyond "not ready". -/
def ShareQueryServer.respond (store : HandoffId → Option EncodedSecretShare)
    (caller : PublicKey) (q : QueryRequest) : Option EncodedSecretShare :=
  match q.node_id with
  | some pk =>
      if caller = pk then store ⟨q.id, q.runtime_id, q.epoch⟩ else none
  | none => store ⟨q.id, q.runtime_id, q.epoch⟩

/-- Modelled from the spec: the HandoffCoordinator phases (section 4.5). -/
inductive HandoffPhase : Type where
  | idle
  | dealing
  | awaitingAgreement
  | fetching
  | verifying
  | confirmedP
  | superseded
  | aborted
deriving DecidableEq

/-- Modelled from the spec: the coordinator-owned record of one handoff,
restricted to the data the confirmation-safety claim needs: the current
phase, the agreed Application checksum once determined, and the checksums of
the Confirmations this node has emitted. -/
structure CoordState where
  phase : HandoffPhase
  agreed : Option Hash
  emitted : List Hash
deriving DecidableEq

def CoordState.init : CoordState := ⟨HandoffPhase.idle, none, []⟩

/-- Modelled from the spec: the HandoffCoordinator transitions of section 4.5.
A Confirmation (its checksum recorded in `emitted`) is produced only by
`verifyOk`, which requires the candidate share's matrix to verify against the
agreed checksum. -/
inductive CoordStep : CoordState → CoordState → Prop where
  | deal (s : CoordState) (h : s.phase = HandoffPhase.idle) :
      CoordStep s ⟨HandoffPhase.dealing, s.agreed, s.emitted⟩
  | applied (s : CoordState) (h : s.phase = HandoffPhase.dealing) :
      CoordStep s ⟨HandoffPhase.awaitingAgreement, s.agreed, s.emitted⟩
  | agree (s : CoordState) (c : Hash) (h : s.phase = HandoffPhase.awaitingAgreement)
      (h2 : s.agreed = none) :
      CoordStep s ⟨HandoffPhase.fetching, some c, s.emitted⟩
  | fetchCompleted (s : CoordState) (h : s.phase = HandoffPhase.fetching) :
      CoordStep s ⟨HandoffPhase.verifying, s.agreed, s.emitted⟩
  | verifyOk (s : CoordState) (m : List Nat) (c : Hash) (h : s.phase = HandoffPhase.verifying)
      (ha : s.agreed = some c) (hv : ChecksumVerifier.matches m c = true) :
      CoordStep s ⟨HandoffPhase.confirmedP, s.agreed, c :: s.emitted⟩
  | verifyFailed (s : CoordState) (h : s.phase = HandoffPhase.verifying) :
      CoordStep s ⟨HandoffPhase.fetching, s.agreed, s.emitted⟩
  | supersede (s : CoordState) (h : s.phase = HandoffPhase.confirmedP) :
      CoordStep s ⟨HandoffPhase.superseded, s.agreed, s.emitted⟩
  | abort (s : CoordState) :
      CoordStep s ⟨HandoffPhase.aborted, s.agreed, s.emitted⟩

/-- A coordinator state reachable from the initial record. -/
def CoordReachable (s : CoordState) : Prop :=
  Relation.ReflTransGen CoordStep CoordState.init s

/-- Every Confirmation checksum ever emitted by a reachable coordinator state
equals that state's agreed Application checksum. -/
theorem coord_emitted_agreed (s : CoordState) (h : CoordReachable s) :
    ∀ c ∈ s.emitted, s.agreed = some c := by
  induction h with
  | refl => simp [CoordState.init]
  | tail _ hbc ih =>
      cases hbc with
      | deal h => exact ih
      | applied h => exact ih
      | agree c h h2 =>
          intro x hx
          exact absurd (h2 ▸ ih x hx) (by simp)
      | fetchCompleted h => exact ih
      | verifyOk m c h ha hv =>
          intro x hx
          rcases List.mem_cons.mp hx with hx | hx
          · simpa [hx] using ha
          · exact ih x hx
      | verifyFailed h => exact ih
      | supersede h => exact ih
      | abort => exact ih

/-- The only coordinator transition that emits a Confirmation is the
`Verifying → Confirmed` transition, and it requires the reconstructed
candidate to have been checksum-verified against the agreed checksum. -/
theorem coord_emit_only_verified (s s' : CoordState) (hstep : CoordStep s s')
    (hne : s'.emitted ≠ s.emitted) :
    s.phase = HandoffPhase.verifying ∧
      ∃ m c, s'.emitted = c :: s.emitted ∧ s.agreed = some c ∧ s'.agreed = some c ∧
        ChecksumVerifier.matches m c = true := by
  cases hstep with
  | deal h => exact absurd rfl hne
  | applied h => exact absurd rfl hne
  | agree c h h2 => exact absurd rfl hne
  | fetchCompleted h => exact absurd rfl hne
  | verifyOk m c h ha hv => exact ⟨h, m, c, rfl, ha, ha, hv⟩
  | verifyFailed h => exact absurd rfl hne
  | supersede h => exact absurd rfl hne
  | abort => exact absurd rfl hne

/-! ## Claim theorems -/

/-- The value at a text key of a CBOR map value. -/
def cborGet (k : String) : CborValue → Option CborValue
  | CborValue.map kvs => lookupKey k kvs
  | _ => none

/-- Claim C1, counterexample: the encoding of a concrete `FetchResponse`
carries exactly the keys completed/succeeded/failed and none of the three
`HandoffId` fields (id, runtime_id, epoch), so not every peer-facing protocol
message type carries the full HandoffId. -/
theorem C1_counterexample :
    cborKeys (FetchResponse.enc ⟨false, [], []⟩) = ["completed", "succeeded", "failed"] ∧
      "id" ∉ cborKeys (FetchResponse.enc ⟨false, [], []⟩) ∧
      "runtime_id" ∉ cborKeys (FetchResponse.enc ⟨false, [], []⟩) ∧
      "epoch" ∉ cborKeys (FetchResponse.enc ⟨false, [], []⟩) := by
  decide

/-- Claim C1, amended: every peer-facing request message type
(`HandoffRequest`, `QueryRequest`, `FetchRequest`, `ApplicationRequest`,
`ConfirmationRequest`) carries all three `HandoffId` fields (a small-integer
scheme id, a runtime identifier and an epoch number); the `FetchResponse`
reply carries none of them. -/
theorem C1_amended :
    (∀ x : HandoffRequest,
        "id" ∈ cborKeys x.enc ∧ "runtime_id" ∈ cborKeys x.enc ∧ "epoch" ∈ cborKeys x.enc) ∧
      (∀ x : QueryRequest,
        "id" ∈ cborKeys x.enc ∧ "runtime_id" ∈ cborKeys x.enc ∧ "epoch" ∈ cborKeys x.enc) ∧
      (∀ x : FetchRequest,
        "id" ∈ cborKeys x.enc ∧ "runtime_id" ∈ cborKeys x.enc ∧ "epoch" ∈ cborKeys x.enc) ∧
      (∀ x : ApplicationRequest,
        "id" ∈ cborKeys x.enc ∧ "runtime_id" ∈ cborKeys x.enc ∧ "epoch" ∈ cborKeys x.enc) ∧
      (∀ x : ConfirmationRequest,
        "id" ∈ cborKeys x.enc ∧ "runtime_id" ∈ cborKeys x.enc ∧ "epoch" ∈ cborKeys x.enc) ∧
      (∀ x : FetchResponse,
        "id" ∉ cborKeys x.enc ∧ "runtime_id" ∉ cborKeys x.enc ∧ "epoch" ∉ cborKeys x.enc) := by
  refine ⟨fun x => ?_, fun x => ?_, fun x => ?_, fun x => ?_, fun x => ?_, fun x => ?_⟩
  · simp [HandoffRequest.enc, cborKeys, encReq]
  · simp [QueryRequest.enc, cborKeys, encReq, encOpt]
  · simp [FetchRequest.enc, cborKeys, encReq]
  · simp [ApplicationRequest.enc, cborKeys, encReq]
  · simp [ConfirmationRequest.enc, cborKeys, encReq]
  · simp [FetchResponse.enc, cborKeys, encReq]

/-- Claim C2: an Application and a Confirmation consist of exactly the
HandoffId fields (id, runtime_id, epoch) plus the checksum of the
verification matrix, and their signed wrappers consist of exactly the request
plus the enclave (RAK) signature over it. -/
theorem C2_application_confirmation_structure :
    (∀ a : ApplicationRequest,
        cborKeys a.enc = ["id", "runtime_id", "epoch", "checksum"] ∧
          cborGet "checksum" a.enc = some (CborValue.bytes a.checksum.val)) ∧
      (∀ c : ConfirmationRequest,
        cborKeys c.enc = ["id", "runtime_id", "epoch", "checksum"] ∧
          cborGet "checksum" c.enc = some (CborValue.bytes c.checksum.val)) ∧
      (∀ s : SignedApplicationRequest,
        cborKeys s.enc = ["application", "signature"] ∧
          cborGet "application" s.enc = some s.application.enc ∧
          cborGet "signature" s.enc = some (CborValue.bytes s.signature.val)) ∧
      (∀ s : SignedConfirmationRequest,
        cborKeys s.enc = ["confirmation", "signature"] ∧
          cborGet "confirmation" s.enc = some s.confirmation.enc ∧
          cborGet "signature" s.enc = some (CborValue.bytes s.signature.val)) := by
  refine ⟨fun a => ⟨?_, ?_⟩, fun c => ⟨?_, ?_⟩, fun s => ⟨?_, ?_, ?_⟩, fun s => ⟨?_, ?_, ?_⟩⟩ <;>
    simp [ApplicationRequest.enc, ConfirmationRequest.enc, SignedApplicationRequest.enc,
      SignedConfirmationRequest.enc, cborKeys, cborGet, lookupKey, encReq, FixedBytes.enc]

/-- Claim C6: an `EncodedSecretShare` consists of exactly two components, the
encoded polynomial and the encoded verification matrix, both byte blobs. -/
theorem C6_encoded_secret_share_structure (x : EncodedSecretShare) :
    cborKeys x.enc = ["polynomial", "verification_matrix"] ∧
      cborGet "polynomial" x.enc = some (CborValue.bytes x.polynomial) ∧
      cborGet "verification_matrix" x.enc = some (CborValue.bytes x.verification_matrix) := by
  refine ⟨?_, ?_, ?_⟩ <;>
    simp [EncodedSecretShare.enc, cborKeys, cborGet, lookupKey, encReq, bytesEnc]

/-- Claim C7: the checksum carried by every Application and Confirmation is a
fixed-size 32-byte digest, independent of the matrix it digests, and it is
encoded as exactly that byte string. -/
theorem C7_checksum_fixed_size (a : ApplicationRequest) (c : ConfirmationRequest) :
    a.checksum.val.length = 32 ∧ c.checksum.val.length = 32 ∧
      cborGet "checksum" a.enc = some (CborValue.bytes a.checksum.val) ∧
      cborGet "checksum" c.enc = some (CborValue.bytes c.checksum.val) := by
  refine ⟨a.checksum.2, c.checksum.2, ?_, ?_⟩ <;>
    simp [ApplicationRequest.enc, ConfirmationRequest.enc, cborGet, lookupKey, encReq,
      FixedBytes.enc]

/-- Claim C8: CBOR decoding of the CBOR encoding is the identity on the
staking types `Account`, `Delegation`, `DebondingDelegation` and `Event`. -/
theorem C8_staking_roundtrip :
    (∀ a : Account, Account.dec (Account.enc a) = some a) ∧
      (∀ d : Delegation, Delegation.dec (Delegation.enc d) = some d) ∧
      (∀ d : DebondingDelegation, DebondingDelegation.dec (DebondingDelegation.enc d) = some d) ∧
      (∀ e : Event, Event.dec (Event.enc e) = some e) :=
  ⟨Account_rt, Delegation_rt, DebondingDelegation_rt, Event_rt⟩

/-- Claim C3: for every reachable coordinator state, every emitted
Confirmation checksum equals the agreed Application checksum, and the only
transition that emits a Confirmation is the checksum-verified
`Verifying → Confirmed` transition. -/
theorem C3_confirmation_checksum_safety :
    (∀ s : CoordState, CoordReachable s → ∀ c ∈ s.emitted, s.agreed = some c) ∧
      (∀ s s' : CoordState, CoordStep s s' → s'.emitted ≠ s.emitted →
        s.phase = HandoffPhase.verifying ∧
          ∃ m c, s'.emitted = c :: s.emitted ∧ s.agreed = some c ∧ s'.agreed = some c ∧
            ChecksumVerifier.matches m c = true) :=
  ⟨coord_emitted_agreed, coord_emit_only_verified⟩

/-- A concrete complete coordinator run ending in the `Confirmed` phase with
one emitted Confirmation. -/
def coordDemoEnd : CoordState :=
  ⟨HandoffPhase.confirmedP, some (ChecksumVerifier.compute [1, 2, 3]),
    [ChecksumVerifier.compute [1, 2, 3]]⟩

theorem C3_witness :
    coordDemoEnd.agreed = some (ChecksumVerifier.compute [1, 2, 3]) := by
  have h0 : CoordStep CoordState.init ⟨HandoffPhase.dealing, none, []⟩ :=
    CoordStep.deal CoordState.init rfl
  have h1 : CoordStep ⟨HandoffPhase.dealing, none, []⟩
      ⟨HandoffPhase.awaitingAgreement, none, []⟩ :=
    CoordStep.applied _ rfl
  have h2 : CoordStep ⟨HandoffPhase.awaitingAgreement, none, []⟩
      ⟨HandoffPhase.fetching, some (ChecksumVerifier.compute [1, 2, 3]), []⟩ :=
    CoordStep.agree _ (ChecksumVerifier.compute [1, 2, 3]) rfl rfl
  have h3 : CoordStep ⟨HandoffPhase.fetching, some (ChecksumVerifier.compute [1, 2, 3]), []⟩
      ⟨HandoffPhase.verifying, some (ChecksumVerifier.compute [1, 2, 3]), []⟩ :=
    CoordStep.fetchCompleted _ rfl
  have h4 : CoordStep ⟨HandoffPhase.verifying, some (ChecksumVerifier.compute [1, 2, 3]), []⟩
      coordDemoEnd :=
    CoordStep.verifyOk _ [1, 2, 3] (ChecksumVerifier.compute [1, 2, 3]) rfl rfl
      (by simp [ChecksumVerifier.matches])
  have hreach : CoordReachable coordDemoEnd :=
    Relation.ReflTransGen.tail
      (Relation.ReflTransGen.tail
        (Relation.ReflTransGen.tail
          (Relation.ReflTransGen.tail (Relation.ReflTransGen.single h0) h1) h2) h3) h4
  exact C3_confirmation_checksum_safety.1 coordDemoEnd hreach
    (ChecksumVerifier.compute [1, 2, 3]) (by simp [coordDemoEnd])

/-- Claim C4: whenever at least `threshold` of the targets yield verified
fragments, the fetch completes; the succeeded and failed lists are disjoint
(every succeeded target verified, every failed one did not), and together
with the cancelled-after-completion targets they cover exactly the target
set. -/
theorem C4_fetch_threshold_completion (ok : PublicKey → Bool) (targets : List PublicKey)
    (threshold : Nat) (h : threshold ≤ targets.countP ok) :
    (ShareFetcher.fetch ok targets threshold).1.completed = true ∧
      (∀ x ∈ (ShareFetcher.fetch ok targets threshold).1.succeeded, ok x = true) ∧
      (∀ x ∈ (ShareFetcher.fetch ok targets threshold).1.failed, ok x = false) ∧
      (∀ x ∈ (ShareFetcher.fetch ok targets threshold).1.succeeded,
        x ∉ (ShareFetcher.fetch ok targets threshold).1.failed) ∧
      ((ShareFetcher.fetch ok targets threshold).1.succeeded +
          ((ShareFetcher.fetch ok targets threshold).1.failed +
            ((ShareFetcher.fetch ok targets threshold).2 : Multiset PublicKey)) =
        (targets : Multiset PublicKey)) := by
  obtain ⟨h1, h2, h3, h4⟩ :=
    fetchGo_spec ok threshold targets [] [] (by simp) (by simp)
  refine ⟨h4 (by simpa using h), h1, h2, ?_, ?_⟩
  · intro x hx hx'
    have := h1 x hx
    have := h2 x hx'
    simp_all
  · simpa using h3

/-- A concrete four-target fetch in which three targets succeed. -/
def pkOfByte (b : Nat) : PublicKey :=
  ⟨b % 256 :: List.replicate 31 0, by simp⟩

def demoTargets : List PublicKey := [pkOfByte 0, pkOfByte 1, pkOfByte 2, pkOfByte 3]

def demoOk (pk : PublicKey) : Bool := pk.val.headD 0 ≤ 2

theorem C4_witness :
    (ShareFetcher.fetch demoOk demoTargets 3).1.completed = true ∧
      ((ShareFetcher.fetch demoOk demoTargets 3).1.succeeded +
          ((ShareFetcher.fetch demoOk demoTargets 3).1.failed +
            ((ShareFetcher.fetch demoOk demoTargets 3).2 : Multiset PublicKey)) =
        (demoTargets : Multiset PublicKey)) :=
  ⟨(C4_fetch_threshold_completion demoOk demoTargets 3 (by decide)).1,
    (C4_fetch_threshold_completion demoOk demoTargets 3 (by decide)).2.2.2.2⟩

/-- Claim C5: the `node_id` field of a `QueryRequest` is optional — requests
exist with and without it, CBOR decoding of an encoded request that omits the
`node_id` key succeeds and yields `node_id = none`, and when `node_id` is
present the responder discloses nothing beyond "not ready" to a mismatched
caller. -/
theorem C5_query_node_id_optional :
    (∃ q : QueryRequest, q.node_id = none) ∧
      (∃ (q : QueryRequest) (pk : PublicKey), q.node_id = some pk) ∧
      (∀ kvs : List (CborValue × CborValue), lookupKey "node_id" kvs = none →
        ∀ q : QueryRequest, QueryRequest.dec (CborValue.map kvs) = some q → q.node_id = none) ∧
      (∀ (store : HandoffId → Option EncodedSecretShare) (caller : PublicKey)
          (q : QueryRequest) (pk : PublicKey), q.node_id = some pk → caller ≠ pk →
        ShareQueryServer.respond store caller q = none) := by
  refine ⟨⟨⟨0, default, 0, none⟩, rfl⟩, ⟨⟨0, default, 0, some default⟩, default, rfl⟩, ?_, ?_⟩
  · intro kvs hk q hq
    rcases h1 : decReq kvs "id" natDec with _ | i
    · simp [QueryRequest.dec, h1] at hq
    rcases h2 : decReq kvs "runtime_id" (FixedBytes.dec 32) with _ | r
    · simp [QueryRequest.dec, h1, h2] at hq
    rcases h3 : decReq kvs "epoch" natDec with _ | e
    · simp [QueryRequest.dec, h1, h2, h3] at hq
    · simp [QueryRequest.dec, h1, h2, h3, decOpt, hk] at hq
      subst hq
      rfl
  · intro store caller q pk hq hne
    simp [ShareQueryServer.respond, hq, hne]

def demoQueryKvs : List (CborValue × CborValue) :=
  encReq "id" natEnc 1 ++ encReq "runtime_id" FixedBytes.enc (pkOfByte 7) ++
    encReq "epoch" natEnc 5 ++ []

def demoQuery : QueryRequest := ⟨1, pkOfByte 7, 5, none⟩

def demoQueryAuth : QueryRequest := ⟨1, pkOfByte 7, 5, some (pkOfByte 1)⟩

theorem C5_witness :
    QueryRequest.dec (CborValue.map demoQueryKvs) = some demoQuery ∧
      demoQuery.node_id = none ∧
      ShareQueryServer.respond (fun _ => none) (pkOfByte 9) demoQueryAuth = none := by
  have hdec : QueryRequest.dec (CborValue.map demoQueryKvs) = some demoQuery := by decide
  exact ⟨hdec,
    C5_query_node_id_optional.2.2.1 demoQueryKvs rfl demoQuery hdec,
    C5_query_node_id_optional.2.2.2 (fun _ => none) (pkOfByte 9) demoQueryAuth (pkOfByte 1)
      rfl (by decide)⟩

/-- Claim C9: every field of `Account`, `GeneralAccount` and `EscrowAccount`
is optional for CBOR: the empty CBOR map decodes to the default value of each
of the three types, and any `Account` decoded from a map missing the
"general" (resp. "escrow") key has that field equal to its default. -/
theorem C9_optional_fields_default :
    Account.dec (CborValue.map []) = some Account.dflt ∧
      GeneralAccount.dec (CborValue.map []) = some GeneralAccount.dflt ∧
      EscrowAccount.dec (CborValue.map []) = some EscrowAccount.dflt ∧
      (∀ (kvs : List (CborValue × CborValue)) (a : Account),
        Account.dec (CborValue.map kvs) = some a →
          (lookupKey "general" kvs = none → a.general = GeneralAccount.dflt) ∧
          (lookupKey "escrow" kvs = none → a.escrow = EscrowAccount.dflt)) := by
  refine ⟨rfl, rfl, rfl, ?_⟩
  intro kvs a hdec
  rcases hg : decOpt kvs "general" GeneralAccount.dec GeneralAccount.dflt with _ | g
  · simp [Account.dec, hg] at hdec
  rcases he : decOpt kvs "escrow" EscrowAccount.dec EscrowAccount.dflt with _ | e
  · simp [Account.dec, hg, he] at hdec
  · simp [Account.dec, hg, he] at hdec
    subst hdec
    constructor
    · intro hl
      simp [decOpt, hl] at hg
      simp [hg]
    · intro hl
      simp [decOpt, hl] at he
      simp [he]

theorem C9_witness :
    Account.dflt.general = GeneralAccount.dflt ∧ Account.dflt.escrow = EscrowAccount.dflt :=
  ⟨(C9_optional_fields_default.2.2.2 [] Account.dflt C9_optional_fields_default.1).1 rfl,
    (C9_optional_fields_default.2.2.2 [] Account.dflt C9_optional_fields_default.1).2 rfl⟩

/-- Claim C10: the valid discriminants of `ThresholdKind` are exactly
0, 1, 2, 4, 5 and 6; decoding the integer 3, or any integer outside that set,
fails rather than producing a value. -/
theorem C10_threshold_kind_discriminants :
    (∀ k : ThresholdKind, k.disc ∈ ([0, 1, 2, 4, 5, 6] : List Int)) ∧
      (∀ n : Int, n ∈ ([0, 1, 2, 4, 5, 6] : List Int) →
        ∃ k : ThresholdKind, ThresholdKind.dec (CborValue.int n) = some k ∧ k.disc = n) ∧
      ThresholdKind.dec (CborValue.int 3) = none ∧
      (∀ n : Int, n ∉ ([0, 1, 2, 4, 5, 6] : List Int) →
        ThresholdKind.dec (CborValue.int n) = none) := by
  refine ⟨?_, ?_, rfl, ?_⟩
  · intro k
    cases k <;> simp [ThresholdKind.disc]
  · intro n hn
    simp only [List.mem_cons, List.not_mem_nil, or_false] at hn
    rcases hn with rfl | rfl | rfl | rfl | rfl | rfl
    · exact ⟨ThresholdKind.KindEntity, rfl, rfl⟩
    · exact ⟨ThresholdKind.KindNodeValidator, rfl, rfl⟩
    · exact ⟨ThresholdKind.KindNodeCompute, rfl, rfl⟩
    · exact ⟨ThresholdKind.KindNodeKeyManager, rfl, rfl⟩
    · exact ⟨ThresholdKind.KindRuntimeCompute, rfl, rfl⟩
    · exact ⟨ThresholdKind.KindRuntimeKeyManager, rfl, rfl⟩
  · intro n hn
    simp only [ThresholdKind.dec]
    split_ifs with h0 h1 h2 h4 h5 h6 <;> simp_all

theorem C10_witness : ThresholdKind.dec (CborValue.int 7) = none :=
  C10_threshold_kind_discriminants.2.2.2 7 (by decide)
